import Mathlib

/-!
Verification of the salary-slip extraction core (`slips_to_excel.py`).

The Python source is shallowly embedded over `List Char` / `String`:
regular-expression searches are modelled as explicit left-to-right
scanners (the three patterns of the source are simple enough that greedy
matching with the small amount of backtracking they can actually perform
is reproduced exactly; see the comments on each scanner), pandas numeric
coercion (`astype(str)` / `str.replace` / `to_numeric(errors="coerce")` /
`fillna(0)`) is modelled over `ℚ`, and the `to_markdown` collaborator is
an explicit `Except` argument.
-/

namespace SlipsToExcel

/-- ASCII whitespace, the characters matched by `\s` and stripped by
`str.strip()` for the ASCII texts this program handles. -/
def isSpc (c : Char) : Bool :=
  c == ' ' || c == '\t' || c == '\n' || c == '\r' || c == '\x0B' || c == '\x0C'

/-- The character class `[\d,]` of the numeric patterns. -/
def isDigitComma (c : Char) : Bool := c.isDigit || c == ','

/-- `\s*` : drop a maximal run of whitespace. -/
def dropSpaces (l : List Char) : List Char := l.dropWhile isSpc

/- ------------------------------------------------------------------
`clean_value` (source lines 40-52):
    cleaned = re.sub(r"<br\s*/?>", " ", value)
    cleaned = cleaned.replace("|", "").strip()
    cleaned = re.sub(r"\s+", " ", cleaned)
    return cleaned if cleaned and cleaned != "-" else None
------------------------------------------------------------------ -/

/-- One attempted match of `<br\s*/?>` at the head of the list; returns the
suffix after the match.  (`\s*` can only consume whitespace, so the greedy
run is forced and the only residual choice is the optional `/`.) -/
def tryBr : List Char → Option (List Char)
  | '<' :: 'b' :: 'r' :: rest =>
    match dropSpaces rest with
    | '/' :: '>' :: t => some t
    | '>' :: t => some t
    | _ => none
  | _ => none

/-- `re.sub(r"<br\s*/?>", " ", ·)` : leftmost, non-overlapping replacement,
with explicit fuel (one unit per scanned position suffices). -/
def brSubF : Nat → List Char → List Char
  | 0, l => l
  | _ + 1, [] => []
  | n + 1, c :: cs =>
    match tryBr (c :: cs) with
    | some rest => ' ' :: brSubF n rest
    | none => c :: brSubF n cs

def brSub (l : List Char) : List Char := brSubF l.length l

/-- `.replace("|", "")` : every pipe character is removed. -/
def removePipes (l : List Char) : List Char := l.filter (fun c => !(c == '|'))

/-- Remove a maximal trailing run of whitespace (the right half of
`str.strip()`). -/
def rstrip : List Char → List Char
  | [] => []
  | [c] => if isSpc c then [] else [c]
  | c1 :: c2 :: cs =>
    match rstrip (c2 :: cs) with
    | [] => if isSpc c1 then [] else [c1]
    | r => c1 :: r

/-- `str.strip()` : drop leading and trailing whitespace. -/
def stripWs (l : List Char) : List Char := rstrip (l.dropWhile isSpc)

/-- `re.sub(r"\s+", " ", ·)` : each maximal whitespace run becomes one
space. -/
def collapseWs : List Char → List Char
  | [] => []
  | [c] => [if isSpc c then ' ' else c]
  | c1 :: c2 :: cs =>
    if isSpc c1 && isSpc c2 then collapseWs (c2 :: cs)
    else (if isSpc c1 then ' ' else c1) :: collapseWs (c2 :: cs)

/-- The full cleaning pipeline of `clean_value`, on character lists. -/
def cleanChars (l : List Char) : List Char :=
  collapseWs (stripWs (removePipes (brSub l)))

/-- `clean_value` (source lines 40-52).  The `Option` input models the
Python duck typing: `if not value: return None` handles both `None` and
the empty string, and the final line maps an empty or `"-"` result to
`None`. -/
def clean_value (value : Option String) : Option String :=
  match value with
  | none => none
  | some s =>
    if s = "" then none
    else if cleanChars s.data = [] ∨ cleanChars s.data = ['-'] then none
    else some (String.mk (cleanChars s.data))

/- ------------------------------------------------------------------
`extract_numeric_value` (source lines 66-92):
  inline pattern : \*{0,2}FIELD\*{0,2}\s*\|?\s*([\d,]+(?:\.\d{2})?)
  table pattern  : \|\s*\*{0,2}FIELD\*{0,2}\s*\|\s*([\d,]+(?:\.\d{2})?)
both searched case-insensitively, inline first.
------------------------------------------------------------------ -/

/-- Case-insensitive literal match of the (escaped) field name; returns
the suffix after the label.  (`re.IGNORECASE` on ASCII labels.) -/
def matchCI : List Char → List Char → Option (List Char)
  | [], l => some l
  | _ :: _, [] => none
  | p :: ps, c :: cs => if p.toLower = c.toLower then matchCI ps cs else none

/-- The greedy alternatives of a leading `\*{0,2}` : two stars, one star,
none — in the order the regex engine tries them. -/
def starAlts (l : List Char) : List (List Char) :=
  match l with
  | '*' :: '*' :: t => [t, '*' :: t, l]
  | '*' :: t => [t, l]
  | _ => [l]

/-- A trailing `\*{0,2}` after the label.  Because the characters that may
follow it in the patterns (`\s`, `|`, `[\d,]`) never match `*`, taking the
maximal count is the only branch that can succeed, so no backtracking is
needed. -/
def dropStars2 : List Char → List Char
  | '*' :: '*' :: t => t
  | '*' :: t => t
  | l => l

/-- `\|?` : an optional pipe.  Skipping a present pipe can never help
(the following element `\s*[\d,]` does not match `|`), so the greedy
choice is forced. -/
def dropBar : List Char → List Char
  | '|' :: t => t
  | l => l

/-- The capture group `([\d,]+(?:\.\d{2})?)` : a maximal nonempty run of
digits/commas, extended by `.dd` exactly when two digits follow a dot.
`[\d,]` cannot match `.`, so the maximal run is forced, and the optional
fraction is taken greedily (the pattern ends with the group). -/
def readNumGroup (l : List Char) : Option (List Char) :=
  if l.takeWhile isDigitComma = [] then none
  else
    match l.drop (l.takeWhile isDigitComma).length with
    | '.' :: d1 :: d2 :: _ =>
      if d1.isDigit && d2.isDigit
      then some (l.takeWhile isDigitComma ++ ['.', d1, d2])
      else some (l.takeWhile isDigitComma)
    | _ => some (l.takeWhile isDigitComma)

/-- The part of the inline pattern between the label and the capture
group: `\*{0,2}\s*\|?\s*`. -/
def postLabel (l : List Char) : List Char :=
  dropSpaces (dropBar (dropSpaces (dropStars2 l)))

/-- Anchored attempt of the inline pattern at one start position. -/
def tryInlineAt (field l : List Char) : Option (List Char) :=
  (starAlts l).findSome? fun l1 =>
    (matchCI field l1).bind fun l2 => readNumGroup (postLabel l2)

/-- `re.search` with the inline pattern: leftmost start position wins. -/
def scanInline (field : List Char) : List Char → Option (List Char)
  | [] => tryInlineAt field []
  | c :: cs =>
    match tryInlineAt field (c :: cs) with
    | some g => some g
    | none => scanInline field cs

/-- Anchored attempt of the table pattern
`\|\s*\*{0,2}FIELD\*{0,2}\s*\|\s*([\d,]+(?:\.\d{2})?)` at one position. -/
def tryTableAt (field l : List Char) : Option (List Char) :=
  match l with
  | '|' :: t =>
    (starAlts (dropSpaces t)).findSome? fun l1 =>
      (matchCI field l1).bind fun l2 =>
        match dropSpaces (dropStars2 l2) with
        | '|' :: l3 => readNumGroup (dropSpaces l3)
        | _ => none
  | _ => none

/-- `re.search` with the table pattern. -/
def scanTable (field : List Char) : List Char → Option (List Char)
  | [] => tryTableAt field []
  | c :: cs =>
    match tryTableAt field (c :: cs) with
    | some g => some g
    | none => scanTable field cs

/-- The table-cell fallback of `extract_numeric_value` (source lines
84-92): `table_match.group(1).strip() if table_match and
table_match.group(1).strip() else None`. -/
def numTableFallback (markdown_text field_name : String) : Option String :=
  match scanTable field_name.data markdown_text.data with
  | some g => if stripWs g = [] then none else some (String.mk (stripWs g))
  | none => none

/-- `extract_numeric_value` (source lines 66-92): inline pattern first,
table pattern as fallback, `None` when both fail. -/
def extract_numeric_value (markdown_text field_name : String) : Option String :=
  match scanInline field_name.data markdown_text.data with
  | some g =>
    if stripWs g = [] then numTableFallback markdown_text field_name
    else some (String.mk (stripWs g))
  | none => numTableFallback markdown_text field_name

/- ------------------------------------------------------------------
`extract_from_table_row` (source lines 54-64):
  pattern : \|[*\s]*FIELD[*\s]*\|([^|]+)\|   (case-insensitive)
------------------------------------------------------------------ -/

/-- The class `[*\s]`. -/
def isStarSpc (c : Char) : Bool := c == '*' || isSpc c

/-- Anchored attempt of the table-row pattern at one position.  The
greedy `[*\s]*` runs are forced because every schema label starts and
ends with a non-star non-space character, and `([^|]+)\|` takes the
maximal pipe-free run, which must be followed by a pipe. -/
def tryRowAt (field l : List Char) : Option (List Char) :=
  match l with
  | '|' :: t =>
    (matchCI field (t.dropWhile isStarSpc)).bind fun l2 =>
      match l2.dropWhile isStarSpc with
      | '|' :: l3 =>
        let cell := l3.takeWhile (fun c => !(c == '|'))
        if cell = [] then none
        else
          match l3.drop cell.length with
          | '|' :: _ => some cell
          | _ => none
      | _ => none
  | _ => none

/-- `re.search` with the table-row pattern. -/
def scanRow (field : List Char) : List Char → Option (List Char)
  | [] => tryRowAt field []
  | c :: cs =>
    match tryRowAt field (c :: cs) with
    | some g => some g
    | none => scanRow field cs

/-- `extract_from_table_row` (source lines 54-64):
`clean_value(match.group(1)) if match else None`. -/
def extract_from_table_row (markdown_text field_name : String) : Option String :=
  match scanRow field_name.data markdown_text.data with
  | some cell => clean_value (some (String.mk cell))
  | none => none

/- ------------------------------------------------------------------
`extract_data_from_pdf` (source lines 94-172).
------------------------------------------------------------------ -/

/-- The record built per document: the fifteen schema keys plus `File`
(source lines 102-119). -/
structure Record where
  file : String
  month : Option String
  employeeName : Option String
  cnic : Option String
  designation : Option String
  employmentBasis : Option String
  basicSalary : Option String
  houseRentAllowance : Option String
  medicalAllowance : Option String
  utilitiesAllowance : Option String
  bonus : Option String
  fuelReimbursements : Option String
  grossPay : Option String
  incomeTax : Option String
  totalDeduction : Option String
  netSalary : Option String
deriving DecidableEq

/-- The initial all-`None` record, identified only by `File`. -/
def emptyRecord (name : String) : Record :=
  { file := name, month := none, employeeName := none, cnic := none
    designation := none, employmentBasis := none, basicSalary := none
    houseRentAllowance := none, medicalAllowance := none
    utilitiesAllowance := none, bonus := none, fuelReimbursements := none
    grossPay := none, incomeTax := none, totalDeduction := none
    netSalary := none }

/-- The special-case defaulting applied to `Bonus` and
`Fuel Reimbursements` (source lines 166-168):
`if data[key] == "-" or data[key] == "": data[key] = "0"`.
An absent value (`None`) satisfies neither comparison. -/
def zeroDefault (v : Option String) : Option String :=
  if v = some "-" ∨ v = some "" then some "0" else v

/-- The exception types the extractor catches (source line 170). -/
inductive PdfError where
  | fileNotFound
  | permissionError
  | valueError
deriving DecidableEq

/-- The field-extraction pass over nonempty markdown text (source lines
129-168).  Each loop iteration stores the located value when the locator
returns a truthy (nonempty) value and leaves the key absent otherwise;
since the initial value is `None` and the locators never return an empty
string, this is exactly the locator's result per key. -/
def extractFields (markdown_text name : String) : Record :=
  { file := name
    month := extract_from_table_row markdown_text "Month of Salary"
    employeeName := extract_from_table_row markdown_text "Employee Name"
    cnic := extract_from_table_row markdown_text "CNIC No."
    designation := extract_from_table_row markdown_text "Designation"
    employmentBasis := extract_from_table_row markdown_text "Employment Basis"
    basicSalary := extract_numeric_value markdown_text "Basic Salary"
    houseRentAllowance := extract_numeric_value markdown_text "House Rent Allowance"
    medicalAllowance := extract_numeric_value markdown_text "Medical Allowance"
    utilitiesAllowance := extract_numeric_value markdown_text "Utilities Allowance"
    bonus := zeroDefault (extract_numeric_value markdown_text "Bonus")
    fuelReimbursements := zeroDefault (extract_numeric_value markdown_text "Fuel Reimbursements")
    grossPay := extract_numeric_value markdown_text "Gross Pay"
    incomeTax := extract_numeric_value markdown_text "Income Tax"
    totalDeduction := extract_numeric_value markdown_text "Total Deduction"
    netSalary := extract_numeric_value markdown_text "Net Salary" }

/-- `extract_data_from_pdf` (source lines 94-172).  The `to_markdown`
collaborator is the `Except` argument: a raised (and caught) exception or
the returned text.  A falsy result (`None` or `""`, modelled as `""`) and
a caught exception both return the untouched initial record. -/
def extract_data_from_pdf (name : String) (conversion : Except PdfError String) : Record :=
  match conversion with
  | Except.error _ => emptyRecord name
  | Except.ok md => if md = "" then emptyRecord name else extractFields md name

/-- `process_all_pdfs` (source lines 174-207): one appended record per
PDF file, in directory order. -/
def process_all_pdfs (docs : List (String × Except PdfError String)) : List Record :=
  docs.map fun d => extract_data_from_pdf d.1 d.2

/-- `get_dataframe` (source lines 209-219): raises
`ValueError("No data extracted. Process PDFs first.")` on an empty
collection. -/
def get_dataframe (rows : List Record) : Except String (List Record) :=
  if rows = [] then Except.error "No data extracted. Process PDFs first."
  else Except.ok rows

/- ------------------------------------------------------------------
`add_totals_to_dataframe` (source lines 222-261).
------------------------------------------------------------------ -/

/-- Decimal value of a digit list (most significant first). -/
def digitsVal (l : List Char) : Nat :=
  l.foldl (fun n c => 10 * n + (c.toNat - 48)) 0

/-- Unsigned decimal literal: `digits`, `digits.digits`, `digits.` or
`.digits`.  Models the grammar `pd.to_numeric` accepts on the strings
this pipeline can produce. -/
def parseUnsigned (l : List Char) : Option ℚ :=
  let ip := l.takeWhile Char.isDigit
  match l.drop ip.length with
  | [] => if ip = [] then none else some (digitsVal ip : ℚ)
  | '.' :: fr =>
    let fp := fr.takeWhile Char.isDigit
    if fr.drop fp.length ≠ [] then none
    else if ip = [] ∧ fp = [] then none
    else some ((digitsVal ip : ℚ) + (digitsVal fp : ℚ) / (10 ^ fp.length : ℚ))
  | _ => none

/-- Optionally signed decimal literal; `pd.to_numeric(·, errors="coerce")`
yields `NaN` (here `none`) on anything else. -/
def parseSigned (l : List Char) : Option ℚ :=
  match l with
  | '+' :: t => parseUnsigned t
  | '-' :: t => (parseUnsigned t).map fun q => -q
  | _ => parseUnsigned l

/-- One cell of the numeric-coercion pass (source lines 244-247):
`astype(str)` renders an absent value as `"None"`, then
`.str.replace(",", "")` removes every comma, `.str.replace("-", "0")`
replaces every dash character by `0`, `pd.to_numeric(errors="coerce")`
parses, and `fillna(0)` maps failures to zero. -/
def coerceCell (v : Option String) : ℚ :=
  let s : List Char :=
    match v with
    | none => "None".data
    | some s => s.data
  let s1 := (s.filter fun c => !(c == ',')).map fun c => if c = '-' then '0' else c
  match parseSigned s1 with
  | some q => q
  | none => 0

/-- A row of the final table: after the coercion pass the ten numeric
columns hold numbers, the identity columns strings (the totals row holds
`""` where ordinary rows may hold `None`). -/
structure Row where
  file : String
  month : Option String
  employeeName : Option String
  cnic : Option String
  designation : Option String
  employmentBasis : Option String
  basicSalary : ℚ
  houseRentAllowance : ℚ
  medicalAllowance : ℚ
  utilitiesAllowance : ℚ
  bonus : ℚ
  fuelReimbursements : ℚ
  grossPay : ℚ
  incomeTax : ℚ
  totalDeduction : ℚ
  netSalary : ℚ
deriving DecidableEq

/-- The in-place numeric coercion of one record (source lines 244-247). -/
def coerceRecord (r : Record) : Row :=
  { file := r.file, month := r.month, employeeName := r.employeeName
    cnic := r.cnic, designation := r.designation
    employmentBasis := r.employmentBasis
    basicSalary := coerceCell r.basicSalary
    houseRentAllowance := coerceCell r.houseRentAllowance
    medicalAllowance := coerceCell r.medicalAllowance
    utilitiesAllowance := coerceCell r.utilitiesAllowance
    bonus := coerceCell r.bonus
    fuelReimbursements := coerceCell r.fuelReimbursements
    grossPay := coerceCell r.grossPay
    incomeTax := coerceCell r.incomeTax
    totalDeduction := coerceCell r.totalDeduction
    netSalary := coerceCell r.netSalary }

/-- The synthetic totals row (source lines 250-258): column sums over the
coerced pre-totals rows, `File = "TOTAL"`, identity fields `""`. -/
def totalsRow (rows : List Row) : Row :=
  { file := "TOTAL", month := some "", employeeName := some ""
    cnic := some "", designation := some "", employmentBasis := some ""
    basicSalary := (rows.map Row.basicSalary).sum
    houseRentAllowance := (rows.map Row.houseRentAllowance).sum
    medicalAllowance := (rows.map Row.medicalAllowance).sum
    utilitiesAllowance := (rows.map Row.utilitiesAllowance).sum
    bonus := (rows.map Row.bonus).sum
    fuelReimbursements := (rows.map Row.fuelReimbursements).sum
    grossPay := (rows.map Row.grossPay).sum
    incomeTax := (rows.map Row.incomeTax).sum
    totalDeduction := (rows.map Row.totalDeduction).sum
    netSalary := (rows.map Row.netSalary).sum }

/-- `add_totals_to_dataframe` (source lines 222-261): coerce the numeric
columns in place, then append the totals row. -/
def add_totals_to_dataframe (records : List Record) : List Row :=
  let rows := records.map coerceRecord
  rows ++ [totalsRow rows]

/-- The `main` data path (source lines 389-400): collected records →
`get_dataframe` → `add_totals_to_dataframe`; a `ValueError` from
`get_dataframe` propagates. -/
def runPipeline (docs : List (String × Except PdfError String)) : Except String (List Row) :=
  (get_dataframe (process_all_pdfs docs)).map add_totals_to_dataframe

/- ------------------------------------------------------------------
Auxiliary definitions for the stated properties.
------------------------------------------------------------------ -/

/-- The token shape actually produced by the numeric capture group: a
nonempty run of digits and commas, optionally followed by a dot and
exactly two digits. -/
def looseTokChars (l : List Char) : Bool :=
  !(l.takeWhile isDigitComma).isEmpty &&
    (match l.drop (l.takeWhile isDigitComma).length with
     | [] => true
     | ['.', d1, d2] => d1.isDigit && d2.isDigit
     | _ => false)

/-- Helper of `specNumTok`: `(,digits)*(.dd)?` with explicit fuel. -/
def specGroupsF : Nat → List Char → Bool
  | _, [] => true
  | 0, _ => false
  | fuel + 1, l =>
    match l with
    | ',' :: t =>
      let d := t.takeWhile Char.isDigit
      !d.isEmpty && specGroupsF fuel (t.drop d.length)
    | ['.', d1, d2] => d1.isDigit && d2.isDigit
    | _ => false

/-- Modelled from the spec: the token grammar
`digits[,digits]*[.digits{2}]` claimed for the numeric locator — a
comma-grouped integer part beginning with a digit, followed by an
optional exactly-two-digit fraction.  Stated from the spec's words for
comparison with the code's actual token shape. -/
def specNumTok (s : String) : Bool :=
  let l := s.data
  let d := l.takeWhile Char.isDigit
  !d.isEmpty && specGroupsF l.length (l.drop d.length)

/-- Whether the pattern `<br\s*/?>` matches anywhere in the list. -/
def hasBr : List Char → Bool
  | [] => false
  | c :: cs => (tryBr (c :: cs)).isSome || hasBr cs

/-- The first character, if any, is not whitespace. -/
def headNonSpc : List Char → Bool
  | [] => true
  | c :: _ => !isSpc c

/-- The last character, if any, is not whitespace. -/
def endsNonSpc : List Char → Bool
  | [] => true
  | [c] => !isSpc c
  | _ :: c2 :: cs => endsNonSpc (c2 :: cs)

/-- Every whitespace character is a plain space and no two adjacent
characters are both whitespace (the normal form produced by
`re.sub(r"\s+", " ", ·)`). -/
def wsNormal : List Char → Bool
  | [] => true
  | [c] => !isSpc c || c == ' '
  | c1 :: c2 :: cs =>
    (!isSpc c1 || c1 == ' ') && !(isSpc c1 && isSpc c2) && wsNormal (c2 :: cs)

/-- First document of the spec's totals example:
`{Basic Salary: "10,000", Net Salary: "9,000"}`. -/
def exampleRecord1 : Record :=
  { emptyRecord "slip1.pdf" with
    basicSalary := some "10,000", netSalary := some "9,000" }

/-- Second document of the spec's totals example:
`{Basic Salary: "5,000.50", Net Salary: "4,500"}`. -/
def exampleRecord2 : Record :=
  { emptyRecord "slip2.pdf" with
    basicSalary := some "5,000.50", netSalary := some "4,500" }

/-- The aggregated table of the spec's totals example. -/
def exampleTable : List Row :=
  add_totals_to_dataframe [exampleRecord1, exampleRecord2]

/- ==================================================================
Helper lemmas.
================================================================== -/

theorem take_length_append {α : Type} (a b : List α) : (a ++ b).take a.length = a := by
  induction a with
  | nil => rfl
  | cons x t ih => simp [ih]

theorem coerceCell_ex1 : coerceCell (some "10,000") = (10000 : ℚ) := by
  have h : coerceCell (some "10,000") = ((10000 : ℕ) : ℚ) := rfl
  rw [h]; norm_num

theorem coerceCell_ex2 : coerceCell (some "5,000.50") = (5000.5 : ℚ) := by
  have h : coerceCell (some "5,000.50")
      = ((5000 : ℕ) : ℚ) + ((50 : ℕ) : ℚ) / 10 ^ (2 : ℕ) := rfl
  rw [h]; norm_num

theorem coerceCell_ex3 : coerceCell (some "9,000") = (9000 : ℚ) := by
  have h : coerceCell (some "9,000") = ((9000 : ℕ) : ℚ) := rfl
  rw [h]; norm_num

theorem coerceCell_ex4 : coerceCell (some "4,500") = (4500 : ℚ) := by
  have h : coerceCell (some "4,500") = ((4500 : ℕ) : ℚ) := rfl
  rw [h]; norm_num

theorem findSome_ex {α β : Type} (f : α → Option β) :
    ∀ (l : List α) (b : β), l.findSome? f = some b → ∃ a, a ∈ l ∧ f a = some b := by
  intro l
  induction l with
  | nil => intro b h; simp [List.findSome?_nil] at h
  | cons a as ih =>
    intro b h
    cases hfa : f a with
    | some c =>
      rw [List.findSome?_cons, hfa] at h
      have h' : some c = some b := h
      exact ⟨a, List.mem_cons_self a as, hfa.trans h'⟩
    | none =>
      rw [List.findSome?_cons, hfa] at h
      have h' : as.findSome? f = some b := h
      obtain ⟨x, hx, hfx⟩ := ih b h'
      exact ⟨x, List.mem_cons_of_mem a hx, hfx⟩

theorem takeWhile_eq_self_of_all {α : Type} (p : α → Bool) :
    ∀ l : List α, (∀ x ∈ l, p x = true) → l.takeWhile p = l := by
  intro l
  induction l with
  | nil => intro _; rfl
  | cons c t ih =>
    intro h
    rw [List.takeWhile_cons, if_pos (h c (List.mem_cons_self c t))]
    rw [ih fun x hx => h x (List.mem_cons_of_mem c hx)]

theorem takeWhile_append_stop {α : Type} (p : α → Bool) :
    ∀ (ds : List α) (c : α) (r : List α), (∀ x ∈ ds, p x = true) → p c = false →
      (ds ++ c :: r).takeWhile p = ds ∧ (ds ++ c :: r).drop ds.length = c :: r := by
  intro ds
  induction ds with
  | nil =>
    intro c r _ hc
    constructor
    · rw [List.nil_append, List.takeWhile_cons, if_neg (by simp [hc])]
    · rfl
  | cons d t ih =>
    intro c r h hc
    obtain ⟨ih1, ih2⟩ := ih c r (fun x hx => h x (List.mem_cons_of_mem d hx)) hc
    constructor
    · rw [List.cons_append, List.takeWhile_cons,
        if_pos (h d (List.mem_cons_self d t)), ih1]
    · rw [List.cons_append]
      show (t ++ c :: r).drop t.length = c :: r
      exact ih2

theorem digit_not_spc (c : Char) (h : c.isDigit = true) : isSpc c = false := by
  cases hs : isSpc c with
  | false => rfl
  | true =>
    exfalso
    unfold isSpc at hs
    simp only [Bool.or_eq_true, beq_iff_eq] at hs
    rcases hs with ((((h1 | h1) | h1) | h1) | h1) | h1 <;> subst h1 <;>
      exact absurd h (by decide)

theorem dc_not_spc (c : Char) (h : isDigitComma c = true) : isSpc c = false := by
  unfold isDigitComma at h
  simp only [Bool.or_eq_true, beq_iff_eq] at h
  rcases h with h | h
  · exact digit_not_spc c h
  · subst h; decide

theorem looseTok_of_all_dc (ds : List Char) (h0 : ds ≠ [])
    (hall : ∀ x ∈ ds, isDigitComma x = true) : looseTokChars ds = true := by
  unfold looseTokChars
  rw [takeWhile_eq_self_of_all isDigitComma ds hall, List.drop_length]
  cases ds with
  | nil => exact absurd rfl h0
  | cons c t => rfl

theorem looseTok_frac (ds : List Char) (d1 d2 : Char) (h0 : ds ≠ [])
    (hall : ∀ x ∈ ds, isDigitComma x = true)
    (h1 : d1.isDigit = true) (h2 : d2.isDigit = true) :
    looseTokChars (ds ++ ['.', d1, d2]) = true := by
  obtain ⟨ht, hd⟩ := takeWhile_append_stop isDigitComma ds '.' [d1, d2] hall (by decide)
  unfold looseTokChars
  rw [ht, hd]
  cases ds with
  | nil => exact absurd rfl h0
  | cons c t => simp [h1, h2]

theorem readNumGroup_spec : ∀ l g : List Char, readNumGroup l = some g →
    looseTokChars g = true ∧ g ≠ [] ∧ ∀ x ∈ g, isSpc x = false := by
  intro l g h
  unfold readNumGroup at h
  by_cases h0 : l.takeWhile isDigitComma = []
  · rw [if_pos h0] at h; exact absurd h (by simp)
  · rw [if_neg h0] at h
    have hall : ∀ x ∈ l.takeWhile isDigitComma, isDigitComma x = true :=
      fun x hx => List.mem_takeWhile_imp hx
    have hnws : ∀ x ∈ l.takeWhile isDigitComma, isSpc x = false :=
      fun x hx => dc_not_spc x (hall x hx)
    split at h
    next d1 d2 t heq =>
      by_cases hdd : (d1.isDigit && d2.isDigit) = true
      · rw [if_pos hdd] at h
        obtain ⟨hd1, hd2⟩ := Bool.and_eq_true_iff.mp hdd
        obtain hg := (Option.some.injEq _ _ ▸ h :
          l.takeWhile isDigitComma ++ ['.', d1, d2] = g)
        subst hg
        refine ⟨looseTok_frac _ d1 d2 h0 hall hd1 hd2, by simp, ?_⟩
        intro x hx
        rcases List.mem_append.mp hx with hx | hx
        · exact hnws x hx
        · simp only [List.mem_cons, List.not_mem_nil, or_false] at hx
          rcases hx with h' | h' | h'
          · subst h'; decide
          · exact h'.symm ▸ digit_not_spc d1 hd1
          · exact h'.symm ▸ digit_not_spc d2 hd2
      · rw [if_neg hdd] at h
        obtain hg := (Option.some.injEq _ _ ▸ h : l.takeWhile isDigitComma = g)
        subst hg
        exact ⟨looseTok_of_all_dc _ h0 hall, h0, hnws⟩
    next heq =>
      obtain hg := (Option.some.injEq _ _ ▸ h : l.takeWhile isDigitComma = g)
      subst hg
      exact ⟨looseTok_of_all_dc _ h0 hall, h0, hnws⟩

theorem tryInlineAt_spec (field l g : List Char) (h : tryInlineAt field l = some g) :
    looseTokChars g = true ∧ g ≠ [] ∧ ∀ x ∈ g, isSpc x = false := by
  unfold tryInlineAt at h
  obtain ⟨a, _, ha⟩ := findSome_ex _ _ _ h
  cases hm : matchCI field a with
  | none => rw [hm] at ha; exact absurd ha (by simp)
  | some l2 =>
    rw [hm] at ha
    exact readNumGroup_spec _ _ ha

theorem tryTableAt_spec (field l g : List Char) (h : tryTableAt field l = some g) :
    looseTokChars g = true ∧ g ≠ [] ∧ ∀ x ∈ g, isSpc x = false := by
  unfold tryTableAt at h
  split at h
  next t =>
    obtain ⟨a, _, ha⟩ := findSome_ex _ _ _ h
    cases hm : matchCI field a with
    | none => rw [hm] at ha; exact absurd ha (by simp)
    | some l2 =>
      rw [hm] at ha
      have ha' : (match dropSpaces (dropStars2 l2) with
          | '|' :: l3 => readNumGroup (dropSpaces l3)
          | _ => none) = some g := ha
      split at ha'
      next l3 heq => exact readNumGroup_spec _ _ ha'
      next => exact absurd ha' (by simp)
  next => exact absurd h (by simp)

theorem scanInline_spec (field : List Char) : ∀ l g : List Char,
    scanInline field l = some g →
    looseTokChars g = true ∧ g ≠ [] ∧ ∀ x ∈ g, isSpc x = false := by
  intro l
  induction l with
  | nil => intro g h; exact tryInlineAt_spec field [] g h
  | cons c cs ih =>
    intro g h
    cases hti : tryInlineAt field (c :: cs) with
    | some g2 =>
      simp only [scanInline, hti] at h
      have hg : g2 = g := Option.some.inj h
      exact hg ▸ tryInlineAt_spec field (c :: cs) g2 hti
    | none =>
      simp only [scanInline, hti] at h
      exact ih g h

theorem scanTable_spec (field : List Char) : ∀ l g : List Char,
    scanTable field l = some g →
    looseTokChars g = true ∧ g ≠ [] ∧ ∀ x ∈ g, isSpc x = false := by
  intro l
  induction l with
  | nil => intro g h; exact tryTableAt_spec field [] g h
  | cons c cs ih =>
    intro g h
    cases hti : tryTableAt field (c :: cs) with
    | some g2 =>
      simp only [scanTable, hti] at h
      have hg : g2 = g := Option.some.inj h
      exact hg ▸ tryTableAt_spec field (c :: cs) g2 hti
    | none =>
      simp only [scanTable, hti] at h
      exact ih g h

theorem headNonSpc_of_all (l : List Char) (h : ∀ x ∈ l, isSpc x = false) :
    headNonSpc l = true := by
  cases l with
  | nil => rfl
  | cons c t => simp [headNonSpc, h c (List.mem_cons_self c t)]

theorem endsNonSpc_of_all : ∀ l : List Char, (∀ x ∈ l, isSpc x = false) →
    endsNonSpc l = true := by
  intro l
  induction l with
  | nil => intro _; rfl
  | cons c t ih =>
    intro h
    cases t with
    | nil => simp [endsNonSpc, h c (List.mem_cons_self c [])]
    | cons c2 cs =>
      show endsNonSpc (c2 :: cs) = true
      exact ih fun x hx => h x (List.mem_cons_of_mem c hx)

theorem dropWhile_eq_self_of_headNonSpc (l : List Char) (h : headNonSpc l = true) :
    l.dropWhile isSpc = l := by
  cases l with
  | nil => rfl
  | cons c t =>
    have hc : isSpc c = false := by simpa [headNonSpc] using h
    rw [List.dropWhile_cons, if_neg (by simp [hc])]

theorem rstrip_eq_self_of_endsNonSpc : ∀ l : List Char, endsNonSpc l = true →
    rstrip l = l := by
  intro l
  induction l with
  | nil => intro _; rfl
  | cons c t ih =>
    intro h
    cases t with
    | nil =>
      have hc : isSpc c = false := by simpa [endsNonSpc] using h
      simp [rstrip, hc]
    | cons c2 cs =>
      have ht := ih (h : endsNonSpc (c2 :: cs) = true)
      simp [rstrip, ht]

theorem stripWs_eq_self (l : List Char) (h1 : headNonSpc l = true)
    (h2 : endsNonSpc l = true) : stripWs l = l := by
  unfold stripWs
  rw [dropWhile_eq_self_of_headNonSpc l h1, rstrip_eq_self_of_endsNonSpc l h2]

theorem stripWs_eq_self_of_all (l : List Char) (h : ∀ x ∈ l, isSpc x = false) :
    stripWs l = l :=
  stripWs_eq_self l (headNonSpc_of_all l h) (endsNonSpc_of_all l h)

theorem brSubF_id : ∀ (n : Nat) (l : List Char), hasBr l = false → brSubF n l = l := by
  intro n
  induction n with
  | zero => intro l _; rfl
  | succ n ih =>
    intro l h
    cases l with
    | nil => rfl
    | cons c cs =>
      have h1 : tryBr (c :: cs) = none := by
        cases htb : tryBr (c :: cs) with
        | none => rfl
        | some r => simp [hasBr, htb] at h
      have h2 : hasBr cs = false := by
        simp only [hasBr, h1, Option.isSome_none, Bool.false_or] at h
        exact h
      show brSubF (n + 1) (c :: cs) = c :: cs
      simp only [brSubF, h1]
      rw [ih cs h2]

theorem collapseWs_cons_nonspc (c : Char) (t : List Char) (h : isSpc c = false) :
    collapseWs (c :: t) = c :: collapseWs t := by
  cases t with
  | nil => simp [collapseWs, h]
  | cons c2 cs => simp [collapseWs, h]

theorem collapseWs_ne_nil (c : Char) (t : List Char) : collapseWs (c :: t) ≠ [] := by
  induction t generalizing c with
  | nil => simp [collapseWs]
  | cons c2 cs ih =>
    cases h : (isSpc c && isSpc c2) with
    | true =>
      have : collapseWs (c :: c2 :: cs) = collapseWs (c2 :: cs) := by
        simp [collapseWs, h]
      rw [this]
      exact ih c2
    | false =>
      have : collapseWs (c :: c2 :: cs)
          = (if isSpc c then ' ' else c) :: collapseWs (c2 :: cs) := by
        simp [collapseWs, h]
      rw [this]
      simp

theorem wsNormal_collapseWs : ∀ l : List Char, wsNormal (collapseWs l) = true := by
  intro l
  induction l with
  | nil => rfl
  | cons c t ih =>
    cases t with
    | nil =>
      cases hc : isSpc c with
      | true => simp [collapseWs, hc]; decide
      | false => simp [collapseWs, hc, wsNormal]
    | cons c2 cs =>
      cases h12 : (isSpc c && isSpc c2) with
      | true =>
        have he : collapseWs (c :: c2 :: cs) = collapseWs (c2 :: cs) := by
          simp [collapseWs, h12]
        rw [he]; exact ih
      | false =>
        have he : collapseWs (c :: c2 :: cs)
            = (if isSpc c then ' ' else c) :: collapseWs (c2 :: cs) := by
          simp [collapseWs, h12]
        rw [he]
        cases hc : isSpc c with
        | false =>
          rw [if_neg (by simp [hc])]
          cases hz : collapseWs (c2 :: cs) with
          | nil => exact absurd hz (collapseWs_ne_nil c2 cs)
          | cons a t2 =>
            rw [hz] at ih
            show ((!isSpc c || c == ' ') && !(isSpc c && isSpc a) && wsNormal (a :: t2))
              = true
            simp [hc, ih]
        | true =>
          have hc2 : isSpc c2 = false := by
            rw [hc] at h12; simpa using h12
          rw [if_pos (by simp [hc])]
          have hz : collapseWs (c2 :: cs) = c2 :: collapseWs cs :=
            collapseWs_cons_nonspc c2 cs hc2
          rw [hz]
          rw [hz] at ih
          show ((!isSpc ' ' || ' ' == ' ') && !(isSpc ' ' && isSpc c2)
              && wsNormal (c2 :: collapseWs cs)) = true
          simp [hc2, ih]

theorem collapseWs_eq_self : ∀ l : List Char, wsNormal l = true → collapseWs l = l := by
  intro l
  induction l with
  | nil => intro _; rfl
  | cons c t ih =>
    intro h
    cases t with
    | nil =>
      cases hc : isSpc c with
      | false => simp [collapseWs, hc]
      | true =>
        have hsp : c = ' ' := by
          have h' : (!isSpc c || c == ' ') = true := h
          rw [hc] at h'
          simpa using h'
        subst hsp
        simp [collapseWs, isSpc]
    | cons c2 cs =>
      have h' : ((!isSpc c || c == ' ') && !(isSpc c && isSpc c2)
          && wsNormal (c2 :: cs)) = true := h
      simp only [Bool.and_eq_true] at h'
      obtain ⟨⟨hok, h12⟩, hrest⟩ := h'
      have h12' : (isSpc c && isSpc c2) = false := by
        cases hx : (isSpc c && isSpc c2)
        · rfl
        · rw [hx] at h12; exact absurd h12 (by decide)
      have he : collapseWs (c :: c2 :: cs)
          = (if isSpc c then ' ' else c) :: collapseWs (c2 :: cs) := by
        simp [collapseWs, h12']
      rw [he, ih hrest]
      cases hc : isSpc c with
      | false => rw [if_neg (by simp [hc])]
      | true =>
        have hsp : c = ' ' := by
          rw [hc] at hok; simpa using hok
        rw [if_pos (by simp [hc]), hsp]

theorem mem_collapseWs : ∀ (l : List Char) (x : Char),
    x ∈ collapseWs l → x ∈ l ∨ x = ' ' := by
  intro l
  induction l with
  | nil => intro x hx; simp [collapseWs] at hx
  | cons c t ih =>
    intro x hx
    cases t with
    | nil =>
      simp only [collapseWs, List.mem_singleton] at hx
      cases hc : isSpc c with
      | true => rw [hc] at hx; simp at hx; exact Or.inr hx
      | false => rw [hc] at hx; simp at hx; exact Or.inl (by simp [hx])
    | cons c2 cs =>
      cases h12 : (isSpc c && isSpc c2) with
      | true =>
        have he : collapseWs (c :: c2 :: cs) = collapseWs (c2 :: cs) := by
          simp [collapseWs, h12]
        rw [he] at hx
        rcases ih x hx with hm | hm
        · exact Or.inl (List.mem_cons_of_mem c hm)
        · exact Or.inr hm
      | false =>
        have he : collapseWs (c :: c2 :: cs)
            = (if isSpc c then ' ' else c) :: collapseWs (c2 :: cs) := by
          simp [collapseWs, h12]
        rw [he] at hx
        rcases List.mem_cons.mp hx with hm | hm
        · cases hc : isSpc c with
          | true => rw [hc] at hm; simp at hm; exact Or.inr hm
          | false => rw [hc] at hm; simp at hm; exact Or.inl (by simp [hm])
        · rcases ih x hm with hm2 | hm2
          · exact Or.inl (List.mem_cons_of_mem c hm2)
          · exact Or.inr hm2

theorem mem_rstrip : ∀ (l : List Char) (x : Char), x ∈ rstrip l → x ∈ l := by
  intro l
  induction l with
  | nil => intro x hx; simp [rstrip] at hx
  | cons c t ih =>
    intro x hx
    cases t with
    | nil =>
      cases hc : isSpc c with
      | true => rw [show rstrip [c] = [] by simp [rstrip, hc]] at hx; simp at hx
      | false =>
        rw [show rstrip [c] = [c] by simp [rstrip, hc]] at hx
        exact hx
    | cons c2 cs =>
      cases hr : rstrip (c2 :: cs) with
      | nil =>
        cases hc : isSpc c with
        | true =>
          rw [show rstrip (c :: c2 :: cs) = [] by simp [rstrip, hr, hc]] at hx
          simp at hx
        | false =>
          rw [show rstrip (c :: c2 :: cs) = [c] by simp [rstrip, hr, hc]] at hx
          simp only [List.mem_singleton] at hx
          simp [hx]
      | cons a t2 =>
        rw [show rstrip (c :: c2 :: cs) = c :: a :: t2 by simp [rstrip, hr]] at hx
        rcases List.mem_cons.mp hx with hm | hm
        · simp [hm]
        · have : x ∈ rstrip (c2 :: cs) := by rw [hr]; exact hm
          exact List.mem_cons_of_mem c (ih x this)

theorem mem_dropWhile {p : Char → Bool} : ∀ (l : List Char) (x : Char),
    x ∈ l.dropWhile p → x ∈ l := by
  intro l
  induction l with
  | nil => intro x hx; simp at hx
  | cons c t ih =>
    intro x hx
    rw [List.dropWhile_cons] at hx
    by_cases hc : p c = true
    · rw [if_pos hc] at hx
      exact List.mem_cons_of_mem c (ih x hx)
    · rw [if_neg hc] at hx
      exact hx

theorem removePipes_no_pipe (l : List Char) (x : Char) (hx : x ∈ removePipes l) :
    ¬(x = '|') := by
  intro heq
  obtain ⟨-, hp⟩ := List.mem_filter.mp hx
  subst heq
  simp at hp

theorem removePipes_eq_self : ∀ l : List Char, (∀ x ∈ l, ¬(x = '|')) →
    removePipes l = l := by
  intro l
  induction l with
  | nil => intro _; rfl
  | cons c t ih =>
    intro h
    have hc : (!(c == '|')) = true := by
      have := h c (List.mem_cons_self c t)
      simpa using this
    show (c :: t).filter _ = c :: t
    rw [List.filter_cons, if_pos hc]
    have ih' : t.filter (fun c => !(c == '|')) = t :=
      ih fun x hx => h x (List.mem_cons_of_mem c hx)
    rw [ih']

theorem headNonSpc_dropWhile : ∀ l : List Char,
    headNonSpc (l.dropWhile isSpc) = true := by
  intro l
  induction l with
  | nil => rfl
  | cons c t ih =>
    rw [List.dropWhile_cons]
    by_cases hc : isSpc c = true
    · rw [if_pos hc]; exact ih
    · rw [if_neg hc]
      have hc' : isSpc c = false := by revert hc; cases isSpc c <;> simp
      simp [headNonSpc, hc']

theorem headNonSpc_rstrip (l : List Char) (h : headNonSpc l = true) :
    headNonSpc (rstrip l) = true := by
  cases l with
  | nil => rfl
  | cons c t =>
    have hc : isSpc c = false := by simpa [headNonSpc] using h
    cases t with
    | nil => simp [rstrip, hc, headNonSpc]
    | cons c2 cs =>
      cases hr : rstrip (c2 :: cs) with
      | nil => simp [rstrip, hr, hc, headNonSpc]
      | cons a t2 => simp [rstrip, hr, headNonSpc, hc]

theorem endsNonSpc_rstrip : ∀ l : List Char, endsNonSpc (rstrip l) = true := by
  intro l
  induction l with
  | nil => rfl
  | cons c t ih =>
    cases t with
    | nil =>
      cases hc : isSpc c with
      | true => simp [rstrip, hc, endsNonSpc]
      | false => simp [rstrip, hc, endsNonSpc]
    | cons c2 cs =>
      cases hr : rstrip (c2 :: cs) with
      | nil =>
        cases hc : isSpc c with
        | true => simp [rstrip, hr, hc, endsNonSpc]
        | false => simp [rstrip, hr, hc, endsNonSpc]
      | cons a t2 =>
        have he : rstrip (c :: c2 :: cs) = c :: a :: t2 := by simp [rstrip, hr]
        rw [he]
        show endsNonSpc (a :: t2) = true
        rw [hr] at ih
        exact ih

theorem endsNonSpc_collapseWs : ∀ l : List Char, endsNonSpc l = true →
    endsNonSpc (collapseWs l) = true := by
  intro l
  induction l with
  | nil => intro _; rfl
  | cons c t ih =>
    intro h
    cases t with
    | nil =>
      have hc : isSpc c = false := by simpa [endsNonSpc] using h
      simp [collapseWs, hc, endsNonSpc]
    | cons c2 cs =>
      have ihr := ih (h : endsNonSpc (c2 :: cs) = true)
      cases h12 : (isSpc c && isSpc c2) with
      | true =>
        have he : collapseWs (c :: c2 :: cs) = collapseWs (c2 :: cs) := by
          simp [collapseWs, h12]
        rw [he]; exact ihr
      | false =>
        have he : collapseWs (c :: c2 :: cs)
            = (if isSpc c then ' ' else c) :: collapseWs (c2 :: cs) := by
          simp [collapseWs, h12]
        rw [he]
        cases hz : collapseWs (c2 :: cs) with
        | nil => exact absurd hz (collapseWs_ne_nil c2 cs)
        | cons a t2 =>
          rw [hz] at ihr
          show endsNonSpc (a :: t2) = true
          exact ihr

theorem headNonSpc_collapseWs (l : List Char) (h : headNonSpc l = true) :
    headNonSpc (collapseWs l) = true := by
  cases l with
  | nil => rfl
  | cons c t =>
    have hc : isSpc c = false := by simpa [headNonSpc] using h
    rw [collapseWs_cons_nonspc c t hc]
    simp [headNonSpc, hc]

/- ==================================================================
Claim theorems.
================================================================== -/

/-- Claim C1: for every sequence of records (in particular every
non-empty one), aggregation yields the coerced input rows followed by
exactly one synthetic totals row whose `File` is `"TOTAL"`, whose five
identity fields are the empty string and whose ten numeric fields are
the column sums over the pre-totals rows; on the spec's two-record
example the totals row has Basic Salary 15000.50 and Net Salary 13500. -/
theorem claim_C1 :
    (∀ records : List Record,
        add_totals_to_dataframe records
          = records.map coerceRecord ++ [totalsRow (records.map coerceRecord)]
      ∧ (totalsRow (records.map coerceRecord)).file = "TOTAL"
      ∧ (totalsRow (records.map coerceRecord)).month = some ""
      ∧ (totalsRow (records.map coerceRecord)).employeeName = some ""
      ∧ (totalsRow (records.map coerceRecord)).cnic = some ""
      ∧ (totalsRow (records.map coerceRecord)).designation = some ""
      ∧ (totalsRow (records.map coerceRecord)).employmentBasis = some ""
      ∧ (totalsRow (records.map coerceRecord)).basicSalary
          = ((records.map coerceRecord).map Row.basicSalary).sum
      ∧ (totalsRow (records.map coerceRecord)).houseRentAllowance
          = ((records.map coerceRecord).map Row.houseRentAllowance).sum
      ∧ (totalsRow (records.map coerceRecord)).medicalAllowance
          = ((records.map coerceRecord).map Row.medicalAllowance).sum
      ∧ (totalsRow (records.map coerceRecord)).utilitiesAllowance
          = ((records.map coerceRecord).map Row.utilitiesAllowance).sum
      ∧ (totalsRow (records.map coerceRecord)).bonus
          = ((records.map coerceRecord).map Row.bonus).sum
      ∧ (totalsRow (records.map coerceRecord)).fuelReimbursements
          = ((records.map coerceRecord).map Row.fuelReimbursements).sum
      ∧ (totalsRow (records.map coerceRecord)).grossPay
          = ((records.map coerceRecord).map Row.grossPay).sum
      ∧ (totalsRow (records.map coerceRecord)).incomeTax
          = ((records.map coerceRecord).map Row.incomeTax).sum
      ∧ (totalsRow (records.map coerceRecord)).totalDeduction
          = ((records.map coerceRecord).map Row.totalDeduction).sum
      ∧ (totalsRow (records.map coerceRecord)).netSalary
          = ((records.map coerceRecord).map Row.netSalary).sum)
  ∧ exampleTable.length = 3
  ∧ exampleTable.map Row.file = ["slip1.pdf", "slip2.pdf", "TOTAL"]
  ∧ (exampleTable.map Row.basicSalary).getLast? = some (15000.5 : ℚ)
  ∧ (exampleTable.map Row.netSalary).getLast? = some (13500 : ℚ)
  ∧ (exampleTable.map Row.month).getLast? = some (some "") := by
  refine ⟨fun records => ⟨rfl, rfl, rfl, rfl, rfl, rfl, rfl, rfl, rfl, rfl,
    rfl, rfl, rfl, rfl, rfl, rfl, rfl⟩, by decide, by decide, ?_, ?_, by decide⟩
  · show (exampleTable.map Row.basicSalary).getLast? = some (15000.5 : ℚ)
    simp [exampleTable, add_totals_to_dataframe, coerceRecord, totalsRow,
      exampleRecord1, exampleRecord2, emptyRecord, coerceCell_ex1, coerceCell_ex2]
    norm_num
  · show (exampleTable.map Row.netSalary).getLast? = some (13500 : ℚ)
    simp [exampleTable, add_totals_to_dataframe, coerceRecord, totalsRow,
      exampleRecord1, exampleRecord2, emptyRecord, coerceCell_ex3, coerceCell_ex4]
    norm_num

/-- Claim C3: the aggregator's coercion pass maps `"1,234.56"` to the
number `1234.56`, a lone dash to `0` and an absent value to `0`, and the
pre-totals rows of the result are the records with every numeric field
rewritten by this coercion. -/
theorem claim_C3 :
    coerceCell (some "1,234.56") = (1234.56 : ℚ)
  ∧ coerceCell (some "-") = 0
  ∧ coerceCell none = 0
  ∧ ∀ records : List Record,
      (add_totals_to_dataframe records).take records.length
        = records.map coerceRecord := by
  refine ⟨?_, by decide, by decide, fun records => ?_⟩
  · have h : coerceCell (some "1,234.56")
        = ((1234 : ℕ) : ℚ) + ((56 : ℕ) : ℚ) / 10 ^ (2 : ℕ) := rfl
    rw [h]; norm_num
  · simp [add_totals_to_dataframe, take_length_append]

/-- Claim C4: a document whose conversion fails with a caught exception
or yields empty text produces, without raising, the all-absent record
identified only by `File`, and each input file contributes exactly one
record to the collection. -/
theorem claim_C4 :
    (∀ (name : String) (e : PdfError),
        extract_data_from_pdf name (Except.error e) = emptyRecord name)
  ∧ (∀ name : String, extract_data_from_pdf name (Except.ok "") = emptyRecord name)
  ∧ (∀ name : String,
        (emptyRecord name).file = name
      ∧ (emptyRecord name).month = none
      ∧ (emptyRecord name).employeeName = none
      ∧ (emptyRecord name).cnic = none
      ∧ (emptyRecord name).designation = none
      ∧ (emptyRecord name).employmentBasis = none
      ∧ (emptyRecord name).basicSalary = none
      ∧ (emptyRecord name).houseRentAllowance = none
      ∧ (emptyRecord name).medicalAllowance = none
      ∧ (emptyRecord name).utilitiesAllowance = none
      ∧ (emptyRecord name).bonus = none
      ∧ (emptyRecord name).fuelReimbursements = none
      ∧ (emptyRecord name).grossPay = none
      ∧ (emptyRecord name).incomeTax = none
      ∧ (emptyRecord name).totalDeduction = none
      ∧ (emptyRecord name).netSalary = none)
  ∧ (∀ docs : List (String × Except PdfError String),
        (process_all_pdfs docs).length = docs.length) := by
  refine ⟨fun name e => rfl, fun name => ?_, fun name => ⟨rfl, rfl, rfl, rfl,
    rfl, rfl, rfl, rfl, rfl, rfl, rfl, rfl, rfl, rfl, rfl, rfl⟩,
    fun docs => by simp [process_all_pdfs]⟩
  show (if ("" : String) = "" then emptyRecord name else extractFields "" name)
      = emptyRecord name
  rw [if_pos rfl]

/-- Claim C5: aggregating an empty record collection fails with the
propagating `ValueError`; a run that collected no records errors out
instead of producing a table. -/
theorem claim_C5 :
    get_dataframe [] = Except.error "No data extracted. Process PDFs first."
  ∧ runPipeline [] = Except.error "No data extracted. Process PDFs first." :=
  ⟨rfl, rfl⟩

/-- Claim C7 (amended): on a labeled value whose fraction has one digit
the inline pattern still matches, capturing only the integer part, and
with three fraction digits it captures the integer part plus the first
two fraction digits; the locator returns that truncated token instead of
falling through to the table fallback or to `None`. -/
theorem claim_C7 :
    extract_numeric_value "Bonus 1.2" "Bonus" = some "1"
  ∧ extract_numeric_value "Bonus 1.234" "Bonus" = some "1.23" := by decide

/-- Claim C7 counterexample: for the document `"Bonus 1.2"` (fraction of
one digit) the locator neither returns `None` nor the table-fallback
result, contradicting the claimed silent fall-through. -/
theorem claim_C7_cex :
    ¬(extract_numeric_value "Bonus 1.2" "Bonus" = none
      ∨ extract_numeric_value "Bonus 1.2" "Bonus"
          = numTableFallback "Bonus 1.2" "Bonus") := by decide

/-- Claim C10: the dash-to-zero mapping of the coercion pass is a
per-occurrence character replacement, so the cell `"1-2"` is coerced to
the nonzero number `102` rather than treated as a zero placeholder. -/
theorem claim_C10 :
    coerceCell (some "1-2") = (102 : ℚ)
  ∧ coerceCell (some "1-2") ≠ 0
  ∧ coerceCell (some "--") = 0 := by
  refine ⟨by decide, by decide, by decide⟩

/-- Claim C9: `clean_value` is total by construction, returns `None`
exactly when the cleaned text (line-break markup to spaces, pipes
removed, ends trimmed, whitespace runs collapsed) is empty or the
placeholder dash, and otherwise returns that cleaned text. -/
theorem claim_C9 :
    clean_value none = none
  ∧ (∀ s : String,
      clean_value (some s) = none
        ↔ (cleanChars s.data = [] ∨ cleanChars s.data = ['-']))
  ∧ (∀ s : String,
      clean_value (some s) = none
        ∨ clean_value (some s) = some (String.mk (cleanChars s.data))) := by
  refine ⟨rfl, fun s => ?_, fun s => ?_⟩
  · show (if s = "" then none
        else if cleanChars s.data = [] ∨ cleanChars s.data = ['-'] then none
        else some (String.mk (cleanChars s.data))) = none ↔ _
    by_cases hs : s = ""
    · subst hs
      rw [if_pos rfl]
      exact ⟨fun _ => Or.inl (by decide), fun _ => rfl⟩
    · rw [if_neg hs]
      by_cases hc : cleanChars s.data = [] ∨ cleanChars s.data = ['-']
      · rw [if_pos hc]
        exact ⟨fun _ => hc, fun _ => rfl⟩
      · rw [if_neg hc]
        exact ⟨fun h => Option.noConfusion h, fun h => absurd h hc⟩
  · by_cases hs : s = ""
    · left
      show (if s = "" then none
          else if cleanChars s.data = [] ∨ cleanChars s.data = ['-'] then none
          else some (String.mk (cleanChars s.data))) = none
      rw [if_pos hs]
    · by_cases hc : cleanChars s.data = [] ∨ cleanChars s.data = ['-']
      · left
        show (if s = "" then none
            else if cleanChars s.data = [] ∨ cleanChars s.data = ['-'] then none
            else some (String.mk (cleanChars s.data))) = none
        rw [if_neg hs, if_pos hc]
      · right
        show (if s = "" then none
            else if cleanChars s.data = [] ∨ cleanChars s.data = ['-'] then none
            else some (String.mk (cleanChars s.data)))
          = some (String.mk (cleanChars s.data))
        rw [if_neg hs, if_neg hc]

theorem numTableFallback_spec (mt fn v : String)
    (h : numTableFallback mt fn = some v) : looseTokChars v.data = true := by
  unfold numTableFallback at h
  cases hst : scanTable fn.data mt.data with
  | none => rw [hst] at h; exact absurd h (by simp)
  | some g =>
    simp only [hst] at h
    obtain ⟨hg1, hg2, hg3⟩ := scanTable_spec fn.data mt.data g hst
    rw [stripWs_eq_self_of_all g hg3, if_neg hg2] at h
    have hv : String.mk g = v := Option.some.inj h
    rw [← hv]
    exact hg1

/-- Claim C6 (amended): every non-null token the numeric locator returns
matches the character class the pattern `[\d,]+(?:\.\d{2})?` actually
admits — a nonempty run of digits and commas (not necessarily beginning
with a digit), optionally followed by an exactly-two-digit fraction —
with the inline strategy tried first, the table strategy used exactly
when the inline search fails, and a null result when both fail. -/
theorem claim_C6 :
    (∀ markdown_text field_name v : String,
        extract_numeric_value markdown_text field_name = some v →
        looseTokChars v.data = true)
  ∧ (∀ (markdown_text field_name : String) (g : List Char),
        scanInline field_name.data markdown_text.data = some g →
        extract_numeric_value markdown_text field_name = some (String.mk g))
  ∧ (∀ markdown_text field_name : String,
        scanInline field_name.data markdown_text.data = none →
        extract_numeric_value markdown_text field_name
          = numTableFallback markdown_text field_name)
  ∧ (∀ markdown_text field_name : String,
        scanInline field_name.data markdown_text.data = none →
        scanTable field_name.data markdown_text.data = none →
        extract_numeric_value markdown_text field_name = none) := by
  refine ⟨?_, ?_, ?_, ?_⟩
  · intro mt fn v h
    unfold extract_numeric_value at h
    cases hsi : scanInline fn.data mt.data with
    | none =>
      rw [hsi] at h
      exact numTableFallback_spec mt fn v h
    | some g =>
      simp only [hsi] at h
      obtain ⟨hg1, hg2, hg3⟩ := scanInline_spec fn.data mt.data g hsi
      rw [stripWs_eq_self_of_all g hg3, if_neg hg2] at h
      have hv : String.mk g = v := Option.some.inj h
      rw [← hv]
      exact hg1
  · intro mt fn g h
    obtain ⟨hg1, hg2, hg3⟩ := scanInline_spec fn.data mt.data g h
    unfold extract_numeric_value
    simp only [h]
    rw [stripWs_eq_self_of_all g hg3, if_neg hg2]
  · intro mt fn h
    unfold extract_numeric_value
    simp only [h]
  · intro mt fn h1 h2
    unfold extract_numeric_value numTableFallback
    simp only [h1, h2]

/-- Claim C6 counterexample: on the document `"Bonus ,5"` the locator
returns the token `",5"`, which does not match the claimed grammar
`digits[,digits]*[.digits{2}]` (its integer part does not begin with a
digit). -/
theorem claim_C6_cex :
    extract_numeric_value "Bonus ,5" "Bonus" = some ",5"
  ∧ specNumTok ",5" = false := by decide

/-- Claim C6 witness: the amended grammar property applied to the
concrete document `"Gross Pay 12,345.67"`. -/
theorem claim_C6_wit : looseTokChars ("12,345.67" : String).data = true :=
  claim_C6.1 "Gross Pay 12,345.67" "Gross Pay" "12,345.67" (by decide)

/-- Claim C2 (amended): the post-pass defaulting of `Bonus` and
`Fuel Reimbursements` rewrites only the literal values `"-"` and `""` to
`"0"`; a field the locator could not find stays absent (`None`) in the
returned record rather than being coerced to `"0"`. -/
theorem claim_C2 :
    ∀ name markdown_text : String,
      (extract_numeric_value markdown_text "Bonus" = none →
        (extract_data_from_pdf name (Except.ok markdown_text)).bonus = none)
    ∧ (extract_numeric_value markdown_text "Fuel Reimbursements" = none →
        (extract_data_from_pdf name (Except.ok markdown_text)).fuelReimbursements
          = none)
    ∧ (∀ v : Option String,
        zeroDefault v = some "0" ↔ (v = some "-" ∨ v = some "" ∨ v = some "0")) := by
  intro name md
  refine ⟨fun h => ?_, fun h => ?_, fun v => ⟨fun h => ?_, fun h => ?_⟩⟩
  · show (if md = "" then emptyRecord name else extractFields md name).bonus = none
    by_cases hmd : md = ""
    · rw [if_pos hmd]; rfl
    · rw [if_neg hmd]
      show zeroDefault (extract_numeric_value md "Bonus") = none
      rw [h]; decide
  · show (if md = "" then emptyRecord name
        else extractFields md name).fuelReimbursements = none
    by_cases hmd : md = ""
    · rw [if_pos hmd]; rfl
    · rw [if_neg hmd]
      show zeroDefault (extract_numeric_value md "Fuel Reimbursements") = none
      rw [h]; decide
  · unfold zeroDefault at h
    split_ifs at h with hc
    · exact hc.elim (fun h1 => Or.inl h1) (fun h2 => Or.inr (Or.inl h2))
    · exact Or.inr (Or.inr h)
  · rcases h with h | h | h <;> subst h <;> decide

/-- Claim C2 counterexample: for a document whose text contains no
`Bonus` or `Fuel Reimbursements` label, the returned record leaves both
fields absent — not the claimed literal `"0"`. -/
theorem claim_C2_cex :
    (extract_data_from_pdf "slip.pdf" (Except.ok "hello")).bonus = none
  ∧ ¬((extract_data_from_pdf "slip.pdf" (Except.ok "hello")).bonus = some "0")
  ∧ (extract_data_from_pdf "slip.pdf" (Except.ok "hello")).fuelReimbursements = none := by
  decide

/-- Claim C2 witness: the amended statement applied to the concrete
document `"hello"`. -/
theorem claim_C2_wit :
    extract_numeric_value "hello" "Bonus" = none
  ∧ (extract_data_from_pdf "doc.pdf" (Except.ok "hello")).bonus = none
  ∧ (extract_data_from_pdf "doc.pdf" (Except.ok "hello")).fuelReimbursements = none :=
  ⟨by decide, (claim_C2 "doc.pdf" "hello").1 (by decide),
    (claim_C2 "doc.pdf" "hello").2.1 (by decide)⟩

/-- Claim C8 (amended): normalization is idempotent on every output that
contains no line-break marker: if `clean_value` returns `v` and `v` has
no occurrence of the `<br\s*/?>` pattern (one can be reintroduced by
pipe removal or partial replacement), then normalizing `v` again returns
`v` unchanged. -/
theorem claim_C8 (s v : String)
    (h1 : clean_value (some s) = some v) (h2 : hasBr v.data = false) :
    clean_value (some v) = some v := by
  have h1' : (if s = "" then none
      else if cleanChars s.data = [] ∨ cleanChars s.data = ['-'] then none
      else some (String.mk (cleanChars s.data))) = some v := h1
  by_cases hs : s = ""
  · rw [if_pos hs] at h1'; exact absurd h1' (by simp)
  · rw [if_neg hs] at h1'
    by_cases hc : cleanChars s.data = [] ∨ cleanChars s.data = ['-']
    · rw [if_pos hc] at h1'; exact absurd h1' (by simp)
    · rw [if_neg hc] at h1'
      have hv : String.mk (cleanChars s.data) = v := Option.some.inj h1'
      have hvd : v.data = cleanChars s.data := by rw [← hv]
      rw [hvd] at h2
      have hN : wsNormal (cleanChars s.data) = true := wsNormal_collapseWs _
      have hH : headNonSpc (cleanChars s.data) = true :=
        headNonSpc_collapseWs _
          (headNonSpc_rstrip _ (headNonSpc_dropWhile _))
      have hE : endsNonSpc (cleanChars s.data) = true :=
        endsNonSpc_collapseWs _ (endsNonSpc_rstrip _)
      have hP : ∀ x ∈ cleanChars s.data, ¬(x = '|') := by
        intro x hx
        rcases mem_collapseWs _ x hx with hm | hm
        · have hm2 : x ∈ removePipes (brSub s.data) :=
            mem_dropWhile _ x (mem_rstrip _ x hm)
          exact removePipes_no_pipe _ x hm2
        · subst hm; decide
      have hclean : cleanChars (cleanChars s.data) = cleanChars s.data := by
        show collapseWs (stripWs (removePipes (brSub (cleanChars s.data))))
          = cleanChars s.data
        rw [show brSub (cleanChars s.data) = cleanChars s.data from
          brSubF_id _ _ h2]
        rw [removePipes_eq_self _ hP]
        rw [stripWs_eq_self _ hH hE]
        exact collapseWs_eq_self _ hN
      have hvne : ¬(v = "") := by
        intro hveq
        rw [hveq] at hvd
        have hnil : cleanChars s.data = [] := hvd.symm
        exact hc (Or.inl hnil)
      show (if v = "" then none
          else if cleanChars v.data = [] ∨ cleanChars v.data = ['-'] then none
          else some (String.mk (cleanChars v.data))) = some v
      rw [if_neg hvne, hvd, hclean, if_neg hc, hv]

/-- Claim C8 counterexample: `clean_value` maps `"<br|>"` to `"<br>"`
(pipe removal reintroduces a line-break marker), and normalizing
`"<br>"` again yields `None`, not `"<br>"` — so normalization is not
idempotent as claimed. -/
theorem claim_C8_cex :
    clean_value (some "<br|>") = some "<br>"
  ∧ clean_value (some "<br>") = none := by decide

/-- Claim C8 witness: the amended idempotence applied to the concrete
input `" a  b "`, whose output `"a b"` contains no line-break marker. -/
theorem claim_C8_wit :
    clean_value (some " a  b ") = some "a b"
  ∧ hasBr ("a b" : String).data = false
  ∧ clean_value (some "a b") = some "a b" :=
  ⟨by decide, by decide, claim_C8 " a  b " "a b" (by decide) (by decide)⟩

end SlipsToExcel
